import Mathlib

/-!
Verification of the jira-to-beads core: the recursive dependency-graph
fetch (internal/jira/client.go) and the Jira-to-beads schema conversion
(internal/converter/proto_converter.go), embedded shallowly in Lean.

Go maps are embedded as association lists with head insertion, so a
first-match lookup returns the most recently inserted binding, matching
the overwrite semantics of a Go map write.  Go errors are embedded as
`Except` values.  The unbounded Go recursion in `fetchRecursive` is
embedded with an explicit fuel parameter plus a distinguished
`fuelExhausted` error; termination of the Go code corresponds to the
theorem that the fuel chosen by the entry points is never exhausted.
-/

namespace JiraToBeads

/-- Prefix test on character lists: `startsWithChars sub l` is true when
`sub` is an initial segment of `l`. -/
def startsWithChars : List Char → List Char → Bool
  | [], _ => true
  | _ :: _, [] => false
  | a :: as, b :: bs => a == b && startsWithChars as bs

/-- `hasSubChars sub l`: `sub` occurs as a contiguous segment of `l`,
mirroring Go's `strings.Contains` scanning loop. -/
def hasSubChars (sub : List Char) : List Char → Bool
  | [] => sub.isEmpty
  | b :: t => startsWithChars sub (b :: t) || hasSubChars sub t

/-- Go's `strings.Contains(s, sub)`. -/
def goContains (s sub : String) : Bool :=
  hasSubChars sub.toList s.toList

/-- Go's `strings.ToLower` (ASCII case folding, which covers every status
and priority vocabulary the converter matches against). -/
def lowerStr (s : String) : String :=
  String.mk (s.toList.map Char.toLower)

example : goContains (lowerStr "In Progress") "progress" = true := rfl
example : goContains "Done" "block" = false := rfl
example : goContains "abc" "" = true := rfl

/-! ## Jira-side data model (gen/jira protobuf messages, internal/jira/types.go) -/

/-- `jirapb.StatusCategory`: only the `Key` field is read by the converter. -/
structure JStatusCategory where
  key : String
  deriving Repr, DecidableEq

/-- `jirapb.Status`: `Name` plus an optional `StatusCategory` (a nil-able
pointer in the protobuf). -/
structure JStatus where
  name : String
  statusCategory : Option JStatusCategory
  deriving Repr, DecidableEq

/-- `jirapb.Priority`. -/
structure JPriority where
  name : String
  id : String
  deriving Repr, DecidableEq

/-- `jirapb.IssueType`. -/
structure JIssueType where
  name : String
  subtask : Bool
  deriving Repr, DecidableEq

/-- `jirapb.User` (assignee). -/
structure JUser where
  emailAddress : String
  displayName : String
  deriving Repr, DecidableEq

/-- `jirapb.Parent`: a parent reference carrying its key and the parent's
own issue-type name (`Parent.Fields.IssueType.Name`). -/
structure JParent where
  key : String
  typeName : String
  deriving Repr, DecidableEq

/-- `jirapb.IssueLink`: the relation phrases (`Type.Inward`, `Type.Outward`)
and the optional linked-issue keys (`InwardIssue.Key`, `OutwardIssue.Key`). -/
structure JLink where
  typeInward : String
  typeOutward : String
  inwardKey : Option String
  outwardKey : Option String
  deriving Repr, DecidableEq

/-- `jirapb.Issue` with the fields the fetcher and converter read.
Subtask references are kept as their keys (`Subtask.Key` is the only field
the code reads). -/
structure JIssue where
  id : String
  key : String
  summary : String
  description : String
  issueType : JIssueType
  status : Option JStatus
  priority : Option JPriority
  assignee : Option JUser
  labels : List String
  issueLinks : List JLink
  parent : Option JParent
  subtasks : List String
  created : String
  updated : String
  deriving Repr, DecidableEq

/-- `jirapb.Export`. -/
structure JExport where
  issues : List JIssue
  deriving Repr, DecidableEq

/-! ## Beads-side data model (gen/beads protobuf messages) -/

/-- `beadspb.Status`. -/
inductive BStatus where
  | statusOpen
  | statusInProgress
  | statusBlocked
  | statusClosed
  deriving Repr, DecidableEq

/-- `beadspb.Priority`. -/
inductive BPriority where
  | p0
  | p1
  | p2
  | p3
  | p4
  deriving Repr, DecidableEq

/-- `beadspb.Issue` (with `Metadata` inlined as the three `jira*` fields). -/
structure BIssue where
  id : String
  title : String
  description : String
  status : BStatus
  priority : BPriority
  labels : List String
  dependsOn : List String
  epic : String
  assignee : String
  created : String
  updated : String
  jiraKey : String
  jiraId : String
  jiraIssueType : String
  deriving Repr, DecidableEq

/-- `beadspb.Epic` (with `Metadata` inlined). -/
structure BEpic where
  id : String
  name : String
  description : String
  status : BStatus
  created : String
  updated : String
  jiraKey : String
  jiraId : String
  jiraIssueType : String
  deriving Repr, DecidableEq

/-- `beadspb.Export`. -/
structure BExport where
  issues : List BIssue
  epics : List BEpic
  deriving Repr, DecidableEq

/-! ## Field-value mappings (proto_converter.go) -/

/-- `ProtoConverter.mapStatus` (proto_converter.go:174-200): nil status or
nil status-category yields open; otherwise dispatch on the category key,
falling back to case-insensitive substring matching on the status name. -/
def mapStatus : Option JStatus → BStatus
  | none => .statusOpen
  | some st =>
    match st.statusCategory with
    | none => .statusOpen
    | some cat =>
      if cat.key = "new" then .statusOpen
      else if cat.key = "indeterminate" then .statusInProgress
      else if cat.key = "done" then .statusClosed
      else
        let statusName := lowerStr st.name
        if goContains statusName "block" then .statusBlocked
        else if goContains statusName "progress" || goContains statusName "doing" then
          .statusInProgress
        else if goContains statusName "done" || goContains statusName "closed" then
          .statusClosed
        else .statusOpen

/-- `ProtoConverter.mapPriority` (proto_converter.go:203-225): nil priority
yields p2; otherwise case-insensitive substring matching on the name with
p2 as the unmatched default. -/
def mapPriority : Option JPriority → BPriority
  | none => .p2
  | some pr =>
    let priorityName := lowerStr pr.name
    if goContains priorityName "critical" || goContains priorityName "highest" then .p0
    else if goContains priorityName "high" then .p1
    else if goContains priorityName "medium" then .p2
    else if goContains priorityName "lowest" then .p4
    else if goContains priorityName "low" then .p3
    else .p2

/-- `ProtoConverter.generateBeadsID` (proto_converter.go:229-231). -/
def generateBeadsID (jiraKey : String) : String :=
  lowerStr jiraKey

/-! ## Conversion (proto_converter.go) -/

/-- `ProtoConverter.convertEpic` (proto_converter.go:73-89). -/
def convertEpic (jiraIssue : JIssue) : BEpic :=
  { id := generateBeadsID jiraIssue.key
    name := jiraIssue.summary
    description := jiraIssue.description
    status := mapStatus jiraIssue.status
    created := jiraIssue.created
    updated := jiraIssue.updated
    jiraKey := jiraIssue.key
    jiraId := jiraIssue.id
    jiraIssueType := jiraIssue.issueType.name }

/-- `ProtoConverter.convertIssue` (proto_converter.go:92-138).  The epic
registry `epicMap` is the converter's `c.epicMap` at the time of the call.
The Go function returns `(issue, nil)` unconditionally, so the embedding is
a total function. -/
def convertIssue (epicMap : List (String × String)) (jiraIssue : JIssue) : BIssue :=
  let base : BIssue :=
    { id := generateBeadsID jiraIssue.key
      title := jiraIssue.summary
      description := jiraIssue.description
      status := mapStatus jiraIssue.status
      priority := mapPriority jiraIssue.priority
      labels := jiraIssue.labels
      dependsOn := []
      epic := ""
      assignee := ""
      created := jiraIssue.created
      updated := jiraIssue.updated
      jiraKey := jiraIssue.key
      jiraId := jiraIssue.id
      jiraIssueType := jiraIssue.issueType.name }
  let withAssignee :=
    match jiraIssue.assignee with
    | none => base
    | some u =>
      if u.emailAddress = "" then { base with assignee := u.displayName }
      else { base with assignee := u.emailAddress }
  let withEpic :=
    match jiraIssue.parent with
    | none => withAssignee
    | some p =>
      if p.typeName = "Epic" then
        match List.lookup p.key epicMap with
        | some epicID => { withAssignee with epic := epicID }
        | none => withAssignee
      else withAssignee
  match jiraIssue.parent with
  | none => withEpic
  | some p =>
    if jiraIssue.issueType.subtask then
      if p.typeName = "Epic" then withEpic
      else { withEpic with dependsOn := withEpic.dependsOn ++ [generateBeadsID p.key] }
    else withEpic

/-- `ProtoConverter.getEpics` (proto_converter.go:243-251). -/
def getEpics (ex : JExport) : List JIssue :=
  ex.issues.filter (fun issue => issue.issueType.name = "Epic")

/-- The dependency keys one issue contributes in
`ProtoConverter.getDependencies` (proto_converter.go:257-268): for each
link, in order, an inward key when the inward relation phrase is exactly
"is blocked by", then an outward key when the outward relation phrase is
exactly "depends on". -/
def issueDeps (issue : JIssue) : List String :=
  (issue.issueLinks.map (fun link =>
    (if link.typeInward = "is blocked by" then link.inwardKey.toList else [])
      ++ (if link.typeOutward = "depends on" then link.outwardKey.toList else []))).flatten

/-- `ProtoConverter.getDependencies` (proto_converter.go:254-275): a map
from issue key to its nonempty dependency-key list.  The Go map write
`dependencies[issue.Key] = deps` overwrites any earlier binding, embedded
here by erasing the earlier entry before appending the new one. -/
def getDependencies (ex : JExport) : List (String × List String) :=
  ex.issues.foldl
    (fun acc issue =>
      let deps := issueDeps issue
      if deps.isEmpty then acc
      else acc.filter (fun p => p.1 ≠ issue.key) ++ [(issue.key, deps)])
    []

/-- The map of beads-issue Jira keys to indices built at
proto_converter.go:146-149.  Head insertion makes `List.lookup` return the
binding of the last write, as a Go map lookup would. -/
def buildIdxMap (issues : List BIssue) : List (String × Nat) :=
  (issues.enum.foldl (fun m p => (p.2.jiraKey, p.1) :: m) [])

/-- The inner dedup-append loop of `ProtoConverter.addDependencies`
(proto_converter.go:158-167): append `generateBeadsID depKey` for each
dependency key unless already present.  The slice-membership helper
`contains` called by the Go code is not part of the repository sources;
its behaviour is modelled from the spec: "Each resolved dependency id is
added to the corresponding Target Issue only if not already present
(idempotent merge)", i.e. `contains` is list membership. -/
def addDepsToIssue (depKeys : List String) (issue : BIssue) : BIssue :=
  depKeys.foldl
    (fun iss depKey =>
      let depBeadsID := generateBeadsID depKey
      if iss.dependsOn.contains depBeadsID then iss
      else { iss with dependsOn := iss.dependsOn ++ [depBeadsID] })
    issue

/-- One iteration of the loop of `ProtoConverter.addDependencies`
(proto_converter.go:152-168): look the `(jiraKey, depKeys)` entry's source
key up in the beads-issue index map; a source key with no converted issue
is skipped; otherwise the issue at that index receives the deduplicated
dependency ids. -/
def depStep (idxMap : List (String × Nat)) (acc : List BIssue)
    (entry : String × List String) : List BIssue :=
  match List.lookup entry.1 idxMap with
  | none => acc
  | some i =>
    match acc.get? i with
    | none => acc
    | some iss => acc.set i (addDepsToIssue entry.2 iss)

/-- `ProtoConverter.addDependencies` (proto_converter.go:141-171): fold
`depStep` over the dependency map with the index map built from the issue
list before the loop.  The Go function returns `nil` unconditionally, so
the embedding is total. -/
def addDependencies (jiraDeps : List (String × List String)) (issues : List BIssue) :
    List BIssue :=
  jiraDeps.foldl (depStep (buildIdxMap issues)) issues

/-- The epic registry built by the epic pass of `ProtoConverter.Convert`
(proto_converter.go:41-48): `c.epicMap[jiraIssue.Key] = beadsEpic.Id`,
where the epic's id is `generateBeadsID jiraIssue.Key`. -/
def buildEpicMap (epics : List JIssue) : List (String × String) :=
  epics.foldl (fun m e => (e.key, generateBeadsID e.key) :: m) []

/-- `ProtoConverter.Convert` (proto_converter.go:26-70).  A nil export is
`none`; the function errors only there.  Epics are converted and
registered first, then every non-epic issue is converted, then link-based
dependencies are added. -/
def Convert (jiraExport : Option JExport) : Except String BExport :=
  match jiraExport with
  | none => .error "jira export is nil"
  | some ex =>
    let epics := getEpics ex
    let beadsEpics := epics.map convertEpic
    let epicMap := buildEpicMap epics
    let nonEpics := ex.issues.filter (fun issue => issue.issueType.name ≠ "Epic")
    let beadsIssues := nonEpics.map (convertIssue epicMap)
    let beadsIssues := addDependencies (getDependencies ex) beadsIssues
    .ok { issues := beadsIssues, epics := beadsEpics }

/-! ## Graph fetch (internal/jira/client.go) -/

/-- Errors of the fetch entry points.  `fetchFailed` is the wrapped error
of client.go:103 (`failed to fetch <key>`), `noIssuesFound` the distinct
zero-match error of FetchIssuesByLabel, `searchFailed` the wrapped search
error, and `fuelExhausted` the artefact of the fuel embedding (the Go code
has no such case; the termination theorems show it is unreachable). -/
inductive FetchErr where
  | fuelExhausted
  | fetchFailed (key : String)
  | noIssuesFound (label : String)
  | searchFailed (msg : String)
  deriving Repr, DecidableEq

/-- The mutable state threaded through `fetchRecursive`: the `visited` key
set (a Go map, embedded as the list of inserted keys) and the accumulated
`issues` slice. -/
structure FetchState where
  visited : List String
  issues : List JIssue
  deriving Repr, DecidableEq

/-- The issue server behind `Client.FetchIssue`: an association of issue
keys to the raw records the Jira API returns for them.  A key outside the
association makes `FetchIssue` fail. -/
def fetchIssue (srv : List (String × JIssue)) (key : String) : Option JIssue :=
  List.lookup key srv

/-- The keys `fetchRecursive` visits from the parent clause
(client.go:129-134): the parent key, unless there is no parent or the
parent's issue-type is "Epic". -/
def parentChildKeys (issue : JIssue) : List String :=
  match issue.parent with
  | none => []
  | some p => if p.typeName = "Epic" then [] else [p.key]

/-- All keys `fetchRecursive` recurses into for one fetched issue, in
program order (client.go:108-134): subtask keys, then for each link the
inward key then the outward key, then the non-epic parent key. -/
def childKeysOf (issue : JIssue) : List String :=
  issue.subtasks
    ++ (issue.issueLinks.map (fun link => link.inwardKey.toList ++ link.outwardKey.toList)).flatten
    ++ parentChildKeys issue

/-- The sequential visit of a list of keys with shared state, as in the
subtask/link/parent loops of `fetchRecursive` and the seed loop of
`FetchIssuesByLabel`: `step` visits one key, the first error aborts. -/
def visitList (step : String → FetchState → Except FetchErr FetchState) :
    List String → FetchState → Except FetchErr FetchState
  | [], st => .ok st
  | key :: rest, st =>
    match step key st with
    | .error e => .error e
    | .ok st' => visitList step rest st'

/-- `Client.fetchRecursive` (client.go:93-137), with fuel making the
unbounded Go recursion structural.  A visited key returns immediately;
otherwise the key is marked visited, fetched (failure aborts), appended to
the result, and every child key is visited recursively. -/
def fetchRecursive (srv : List (String × JIssue)) :
    Nat → String → FetchState → Except FetchErr FetchState
  | 0, _, _ => .error .fuelExhausted
  | fuel + 1, issueKey, st =>
    if st.visited.contains issueKey then .ok st
    else
      match fetchIssue srv issueKey with
      | none => .error (.fetchFailed issueKey)
      | some issue =>
        visitList (fetchRecursive srv fuel) (childKeysOf issue)
          { visited := issueKey :: st.visited, issues := st.issues ++ [issue] }

/-- The visit of a list of seed keys at a given fuel. -/
def fetchKeys (srv : List (String × JIssue)) (fuel : Nat) :
    List String → FetchState → Except FetchErr FetchState :=
  visitList (fetchRecursive srv fuel)

/-- The fuel both entry points run with: one unit per server record plus
one.  The termination theorems show this never runs out, because every
successful fetch consumes an unvisited server key. -/
def defaultFuel (srv : List (String × JIssue)) : Nat :=
  srv.length + 1

/-- `Client.FetchIssueWithDependencies` (client.go:81-90): empty visited
set and issue slice, then one recursive fetch from the seed key. -/
def FetchIssueWithDependencies (srv : List (String × JIssue)) (issueKey : String) :
    Except FetchErr (List JIssue) :=
  match fetchRecursive srv (defaultFuel srv) issueKey { visited := [], issues := [] } with
  | .error e => .error e
  | .ok st => .ok st.issues

/-- `Client.FetchIssuesByLabel` (part_010:307-333).  The label search is an
external HTTP call; its outcome enters as `searchRes` (an error message or
the returned key page).  An empty key list is the distinct zero-match
error; otherwise every key is fetched recursively with one shared visited
set. -/
def FetchIssuesByLabel (srv : List (String × JIssue))
    (searchRes : Except String (List String)) (label : String) :
    Except FetchErr (List JIssue) :=
  match searchRes with
  | .error msg => .error (.searchFailed msg)
  | .ok issueKeys =>
    if issueKeys.length = 0 then .error (.noIssuesFound label)
    else
      match fetchKeys srv (defaultFuel srv) issueKeys { visited := [], issues := [] } with
      | .error e => .error e
      | .ok st => .ok st.issues

/-! ## Helper lemmas -/

/-- Monotonicity of filtered length under pointwise predicate implication. -/
lemma length_filter_mono {p q : String → Bool} (h : ∀ a, p a = true → q a = true) :
    ∀ l : List String, (l.filter p).length ≤ (l.filter q).length := by
  intro l
  induction l with
  | nil => simp
  | cons a t ih =>
    cases hpa : p a with
    | true =>
      have hqa := h a hpa
      simp [List.filter_cons, hpa, hqa]
      omega
    | false =>
      cases hqa : q a with
      | true =>
        simp [List.filter_cons, hpa, hqa]
        omega
      | false =>
        simpa [List.filter_cons, hpa, hqa] using ih

/-- Strict filtered-length inequality when some list element satisfies the
larger predicate but not the smaller one. -/
lemma length_filter_lt {p q : String → Bool} (h : ∀ a, p a = true → q a = true)
    {x : String} {l : List String} (hx : x ∈ l) (hqx : q x = true) (hpx : p x = false) :
    (l.filter p).length < (l.filter q).length := by
  induction l with
  | nil => cases hx
  | cons a t ih =>
    rcases List.mem_cons.mp hx with rfl | hxt
    · simp [List.filter_cons, hpx, hqx]
      exact Nat.lt_succ_of_le (length_filter_mono h t)
    · cases hpa : p a with
      | true =>
        have hqa := h a hpa
        simp [List.filter_cons, hpa, hqa]
        exact ih hxt
      | false =>
        cases hqa : q a with
        | true =>
          simp [List.filter_cons, hpa, hqa]
          exact Nat.lt_succ_of_lt (ih hxt)
        | false =>
          simpa [List.filter_cons, hpa, hqa] using ih hxt

/-- A successful association-list lookup means the key heads some pair. -/
lemma lookup_mem_pair {α : Type} {srv : List (String × α)} {k : String} {i : α}
    (h : List.lookup k srv = some i) : (k, i) ∈ srv := by
  induction srv with
  | nil => cases h
  | cons p t ih =>
    rw [List.lookup] at h
    by_cases hk : k == p.1
    · simp only [hk, if_pos] at h
      · obtain rfl : p.2 = i := by simpa using h
        have : k = p.1 := by simpa using hk
        subst this
        simp
    · simp only [hk] at h
      exact List.mem_cons_of_mem _ (ih (by simpa [hk] using h))

/-- Setting an index to the value it already holds is the identity. -/
lemma set_get_same {α : Type} : ∀ (l : List α) (n : Nat) (a : α),
    l.get? n = some a → l.set n a = l := by
  intro l
  induction l with
  | nil => intro n a h; cases h
  | cons x t ih =>
    intro n a h
    cases n with
    | zero => simp only [List.get?] at h; cases h; rfl
    | succ m =>
      simp only [List.get?] at h
      simp [List.set, ih m a h]

/-! ## Termination of the recursive fetch -/

/-- The distinct keys the issue server can answer. -/
def srvKeys (srv : List (String × JIssue)) : List String :=
  (srv.map Prod.fst).dedup

/-- The number of server keys not yet in the visited set: the measure that
strictly decreases at every successful fetch. -/
def unvisitedCount (srv : List (String × JIssue)) (visited : List String) : Nat :=
  ((srvKeys srv).filter (fun k => !(visited.contains k))).length

/-- One fetch state extends another: the visited set and the issue list
only grow (visited by front insertion, issues by appending). -/
def Extends (st st' : FetchState) : Prop :=
  (∃ pre, st'.visited = pre ++ st.visited) ∧ (∃ post, st'.issues = st.issues ++ post)

lemma Extends.rfl (st : FetchState) : Extends st st :=
  ⟨⟨[], Eq.symm (List.nil_append _)⟩, ⟨[], Eq.symm (List.append_nil _)⟩⟩

lemma Extends.trans {s t u : FetchState} (h₁ : Extends s t) (h₂ : Extends t u) :
    Extends s u := by
  obtain ⟨⟨p₁, hv₁⟩, ⟨q₁, hi₁⟩⟩ := h₁
  obtain ⟨⟨p₂, hv₂⟩, ⟨q₂, hi₂⟩⟩ := h₂
  exact ⟨⟨p₂ ++ p₁, by rw [hv₂, hv₁, List.append_assoc]⟩,
    ⟨q₁ ++ q₂, by rw [hi₂, hi₁, List.append_assoc]⟩⟩

/-- Growing the visited set never increases the unvisited count. -/
lemma unvisitedCount_append_le (srv : List (String × JIssue)) (pre v : List String) :
    unvisitedCount srv (pre ++ v) ≤ unvisitedCount srv v := by
  apply length_filter_mono
  intro a ha
  simp only [Bool.not_eq_true'] at ha ⊢
  rcases hc : v.contains a with _ | _
  · rfl
  · exfalso
    have hav : a ∈ v := by simpa using hc
    have : (pre ++ v).contains a = true := by
      simp [List.mem_append, hav]
    rw [this] at ha
    cases ha

/-- Marking an unvisited server key visited strictly decreases the
unvisited count. -/
lemma unvisitedCount_cons_lt (srv : List (String × JIssue)) {k : String} {v : List String}
    (hk : v.contains k = false) (hmem : k ∈ srvKeys srv) :
    unvisitedCount srv (k :: v) < unvisitedCount srv v := by
  refine length_filter_lt ?_ hmem ?_ ?_
  · intro a ha
    simp only [Bool.not_eq_true'] at ha ⊢
    rcases hc : v.contains a with _ | _
    · rfl
    · exfalso
      have hav : a ∈ v := by simpa using hc
      have : (k :: v).contains a = true := by
        simp [List.mem_cons, hav]
      rw [this] at ha
      cases ha
  · simpa using hk
  · simp

/-- A successful server fetch means the key is one of the server's keys. -/
lemma fetchIssue_mem_srvKeys {srv : List (String × JIssue)} {k : String} {i : JIssue}
    (h : fetchIssue srv k = some i) : k ∈ srvKeys srv := by
  have hp := lookup_mem_pair h
  exact List.mem_dedup.mpr (List.mem_map.mpr ⟨(k, i), hp, rfl⟩)

/-- A sequential visit whose step only grows the state only grows the
state. -/
lemma visitList_extends {step : String → FetchState → Except FetchErr FetchState}
    (hstep : ∀ k st st', step k st = .ok st' → Extends st st') :
    ∀ (keys : List String) (st st' : FetchState),
      visitList step keys st = .ok st' → Extends st st' := by
  intro keys
  induction keys with
  | nil =>
    intro st st' h
    simp only [visitList] at h
    cases h
    exact Extends.rfl st
  | cons k rest ih =>
    intro st st' h
    simp only [visitList] at h
    cases hs : step k st with
    | error e => rw [hs] at h; cases h
    | ok st₁ =>
      rw [hs] at h
      exact Extends.trans (hstep _ _ _ hs) (ih _ _ h)

/-- A successful recursive fetch only grows the visited set and the
accumulated issue list. -/
lemma fetchRecursive_extends (srv : List (String × JIssue)) :
    ∀ (fuel : Nat) (k : String) (st st' : FetchState),
      fetchRecursive srv fuel k st = .ok st' → Extends st st' := by
  intro fuel
  induction fuel with
  | zero => intro k st st' h; simp [fetchRecursive] at h
  | succ fuel ih =>
    intro k st st' h
    simp only [fetchRecursive] at h
    by_cases hv : st.visited.contains k = true
    · rw [if_pos hv] at h
      cases h
      exact Extends.rfl st
    · rw [if_neg hv] at h
      cases hl : fetchIssue srv k with
      | none => rw [hl] at h; cases h
      | some issue =>
        rw [hl] at h
        have hmid : Extends st { visited := k :: st.visited, issues := st.issues ++ [issue] } :=
          ⟨⟨[k], Eq.symm (List.singleton_append)⟩, ⟨[issue], Eq.refl _⟩⟩
        exact Extends.trans hmid (visitList_extends (fun a s s' hh => ih a s s' hh) _ _ _ h)

/-- A sequential visit never exhausts fuel when its step does not under
the current unvisited-count bound (the step may only grow the visited
set). -/
lemma visitList_nofuel (srv : List (String × JIssue)) {B : Nat}
    {step : String → FetchState → Except FetchErr FetchState}
    (hgrow : ∀ k st st', step k st = .ok st' → Extends st st')
    (hstep : ∀ k st, unvisitedCount srv st.visited < B →
      step k st ≠ .error .fuelExhausted) :
    ∀ (keys : List String) (st : FetchState), unvisitedCount srv st.visited < B →
      visitList step keys st ≠ .error .fuelExhausted := by
  intro keys
  induction keys with
  | nil =>
    intro st _hB h
    simp [visitList] at h
  | cons k rest ih =>
    intro st hB h
    simp only [visitList] at h
    cases hs : step k st with
    | error e =>
      rw [hs] at h
      cases h
      exact hstep k st hB hs
    | ok st₁ =>
      rw [hs] at h
      obtain ⟨⟨pre, hpre⟩, _⟩ := hgrow _ _ _ hs
      have hle : unvisitedCount srv st₁.visited ≤ unvisitedCount srv st.visited := by
        rw [hpre]
        exact unvisitedCount_append_le srv pre st.visited
      exact ih st₁ (Nat.lt_of_le_of_lt hle hB) h

/-- As long as the fuel exceeds the number of unvisited server keys,
`fetchRecursive` never exhausts it — the termination argument of the
recursive fetch: every successful fetch removes a server key from the
unvisited set, and visited keys return immediately. -/
lemma fetchRecursive_nofuel (srv : List (String × JIssue)) :
    ∀ (fuel : Nat) (k : String) (st : FetchState),
      unvisitedCount srv st.visited < fuel →
      fetchRecursive srv fuel k st ≠ .error .fuelExhausted := by
  intro fuel
  induction fuel with
  | zero => intro k st h; omega
  | succ fuel ih =>
    intro k st hμ h
    simp only [fetchRecursive] at h
    by_cases hv : st.visited.contains k = true
    · rw [if_pos hv] at h; cases h
    · rw [if_neg hv] at h
      cases hl : fetchIssue srv k with
      | none => rw [hl] at h; cases h
      | some issue =>
        rw [hl] at h
        have hk : k ∈ srvKeys srv := fetchIssue_mem_srvKeys hl
        have hlt : unvisitedCount srv (k :: st.visited) < unvisitedCount srv st.visited :=
          unvisitedCount_cons_lt srv (by simpa using hv) hk
        have hmid : unvisitedCount srv
            (FetchState.mk (k :: st.visited) (st.issues ++ [issue])).visited < fuel := by
          simp only []
          omega
        exact visitList_nofuel srv (fun a s s' hh => fetchRecursive_extends srv fuel a s s' hh)
          (fun a s hs => ih a s hs) (childKeysOf issue) _ hmid h

/-- The state invariant behind the each-key-once guarantee: fetched issue
keys are pairwise distinct and every fetched key is visited. -/
def StInv (st : FetchState) : Prop :=
  (st.issues.map JIssue.key).Nodup ∧ ∀ i ∈ st.issues, i.key ∈ st.visited

/-- A sequential visit preserves any state property its step preserves. -/
lemma visitList_preserves {P : FetchState → Prop}
    {step : String → FetchState → Except FetchErr FetchState}
    (hstep : ∀ k st st', step k st = .ok st' → P st → P st') :
    ∀ (keys : List String) (st st' : FetchState),
      visitList step keys st = .ok st' → P st → P st' := by
  intro keys
  induction keys with
  | nil =>
    intro st st' h hP
    simp only [visitList] at h
    cases h
    exact hP
  | cons k rest ih =>
    intro st st' h hP
    simp only [visitList] at h
    cases hs : step k st with
    | error e => rw [hs] at h; cases h
    | ok st₁ =>
      rw [hs] at h
      exact ih _ _ h (hstep _ _ _ hs hP)

/-- When the server answers each key with a record carrying that key,
`fetchRecursive` preserves the each-key-once invariant. -/
lemma fetchRecursive_inv (srv : List (String × JIssue))
    (hwf : ∀ p ∈ srv, p.2.key = p.1) :
    ∀ (fuel : Nat) (k : String) (st st' : FetchState),
      fetchRecursive srv fuel k st = .ok st' → StInv st → StInv st' := by
  intro fuel
  induction fuel with
  | zero => intro k st st' h; simp [fetchRecursive] at h
  | succ fuel ih =>
    intro k st st' h hP
    simp only [fetchRecursive] at h
    by_cases hv : st.visited.contains k = true
    · rw [if_pos hv] at h; cases h; exact hP
    · rw [if_neg hv] at h
      cases hl : fetchIssue srv k with
      | none => rw [hl] at h; cases h
      | some issue =>
        rw [hl] at h
        have hkey : issue.key = k := hwf (k, issue) (lookup_mem_pair hl)
        have hkv : k ∉ st.visited := by simpa using hv
        have hmid : StInv { visited := k :: st.visited, issues := st.issues ++ [issue] } := by
          obtain ⟨hnd, hmem⟩ := hP
          constructor
          · rw [List.map_append]
            simp only [List.map_cons, List.map_nil]
            rw [List.nodup_append]
            refine ⟨hnd, List.nodup_singleton _, ?_⟩
            intro a ha hb
            simp only [List.mem_singleton] at hb
            subst hb
            rw [hkey] at ha
            obtain ⟨i, hi, hik⟩ := List.mem_map.mp ha
            exact hkv (hik ▸ hmem i hi)
          · intro i hi
            rcases List.mem_append.mp hi with hi | hi
            · exact List.mem_cons_of_mem _ (hmem i hi)
            · simp only [List.mem_singleton] at hi
              subst hi
              rw [hkey]
              exact List.mem_cons_self _ _
        exact visitList_preserves (fun a s s' hh => ih a s s' hh) _ _ _ h hmid

/-- The unvisited count of the empty visited set is bounded by the server
size, so `defaultFuel` always suffices. -/
lemma unvisitedCount_nil_le (srv : List (String × JIssue)) :
    unvisitedCount srv [] ≤ srv.length := by
  unfold unvisitedCount
  calc ((srvKeys srv).filter _).length
      ≤ (srvKeys srv).length := List.length_filter_le _ _
    _ ≤ (srv.map Prod.fst).length := List.Sublist.length_le (List.dedup_sublist _)
    _ = srv.length := List.length_map _ _

/-! ## Claim theorems -/

/-- C1.  For every raw-record link graph — the issue server `srv`,
cyclic graphs included — the recursive fetch started from a seed key by
`FetchIssueWithDependencies` terminates (the fuel of the embedding is
never exhausted), and on success each source key appears exactly once in
the flat record list: the keys of the returned records are pairwise
distinct, because a key already in the visited set is never fetched
again.  The hypothesis states that the server answers a key with a record
carrying that key, as the Jira API does. -/
theorem fetch_terminates_each_key_once (srv : List (String × JIssue))
    (hwf : ∀ p ∈ srv, p.2.key = p.1) (seedKey : String) :
    FetchIssueWithDependencies srv seedKey ≠ .error .fuelExhausted ∧
    ∀ issues, FetchIssueWithDependencies srv seedKey = .ok issues →
      (issues.map JIssue.key).Nodup := by
  constructor
  · intro h
    unfold FetchIssueWithDependencies at h
    cases hr : fetchRecursive srv (defaultFuel srv) seedKey { visited := [], issues := [] } with
    | error e =>
      rw [hr] at h
      cases h
      refine fetchRecursive_nofuel srv (defaultFuel srv) seedKey _ ?_ hr
      show unvisitedCount srv [] < defaultFuel srv
      have := unvisitedCount_nil_le srv
      unfold defaultFuel
      omega
    | ok st => rw [hr] at h; cases h
  · intro issues h
    unfold FetchIssueWithDependencies at h
    cases hr : fetchRecursive srv (defaultFuel srv) seedKey { visited := [], issues := [] } with
    | error e => rw [hr] at h; cases h
    | ok st =>
      rw [hr] at h
      cases h
      have : StInv st :=
        fetchRecursive_inv srv hwf _ _ _ _ hr ⟨List.nodup_nil, by intro i hi; cases hi⟩
      exact this.1

/-- A concrete cyclic link graph for the C1 witness: record A links
outward to B and B links outward back to A. -/
def issueCycleA : JIssue :=
  { id := "1", key := "A", summary := "a", description := "",
    issueType := ⟨"Task", false⟩, status := none, priority := none, assignee := none,
    labels := [], issueLinks := [⟨"is blocked by", "depends on", none, some "B"⟩],
    parent := none, subtasks := [], created := "", updated := "" }

/-- Second record of the cycle. -/
def issueCycleB : JIssue :=
  { id := "2", key := "B", summary := "b", description := "",
    issueType := ⟨"Task", false⟩, status := none, priority := none, assignee := none,
    labels := [], issueLinks := [⟨"is blocked by", "depends on", none, some "A"⟩],
    parent := none, subtasks := [], created := "", updated := "" }

/-- The two-record cyclic server. -/
def srvCycle : List (String × JIssue) :=
  [("A", issueCycleA), ("B", issueCycleB)]

/-- Witness for C1 on the cyclic server: the fetch from A does not run
out of fuel, and the keys of the returned records are distinct. -/
theorem fetch_terminates_each_key_once_witness :
    FetchIssueWithDependencies srvCycle "A" ≠ Except.error FetchErr.fuelExhausted ∧
    (([issueCycleA, issueCycleB].map JIssue.key).Nodup) :=
  ⟨(fetch_terminates_each_key_once srvCycle (by decide) "A").1,
   (fetch_terminates_each_key_once srvCycle (by decide) "A").2 [issueCycleA, issueCycleB] rfl⟩

/-- Invoking `fetchRecursive` on an unvisited key that succeeds actually
fetches it: the server record for the key ends up in the result. -/
lemma fetchRecursive_fetches {srv : List (String × JIssue)} {fuel : Nat} {k : String}
    {st st' : FetchState} (hk : st.visited.contains k = false)
    (h : fetchRecursive srv (fuel + 1) k st = .ok st') :
    ∃ issue, fetchIssue srv k = some issue ∧ issue ∈ st'.issues := by
  simp only [fetchRecursive] at h
  rw [if_neg (by rw [hk]; simp)] at h
  cases hl : fetchIssue srv k with
  | none => rw [hl] at h; cases h
  | some issue =>
    rw [hl] at h
    refine ⟨issue, rfl, ?_⟩
    obtain ⟨_, ⟨post, hpost⟩⟩ :=
      visitList_extends (fun a s s' hh => fetchRecursive_extends srv fuel a s s' hh) _ _ _ h
    rw [hpost]
    simp

/-- C5.  During the recursive fetch, for a fetched record with a parent
reference: an "Epic" parent contributes no key to the parent clause of the
traversal (client.go:129-134), so it never triggers a recursive fetch of
the parent; a non-epic parent always contributes exactly its key, which is
among the keys recursed into, and whenever that recursion runs on the
not-yet-visited parent and succeeds, the parent record is fetched into the
result. -/
theorem epic_parent_exclusion (i : JIssue) (p : JParent) (hp : i.parent = some p) :
    (p.typeName = "Epic" → parentChildKeys i = []) ∧
    (p.typeName ≠ "Epic" →
      parentChildKeys i = [p.key] ∧ p.key ∈ childKeysOf i ∧
      ∀ (srv : List (String × JIssue)) (fuel : Nat) (st st' : FetchState),
        st.visited.contains p.key = false →
        fetchRecursive srv (fuel + 1) p.key st = .ok st' →
        ∃ issue, fetchIssue srv p.key = some issue ∧ issue ∈ st'.issues) := by
  constructor
  · intro hE
    simp [parentChildKeys, hp, hE]
  · intro hNE
    have hpk : parentChildKeys i = [p.key] := by
      simp [parentChildKeys, hp, hNE]
    refine ⟨hpk, ?_, ?_⟩
    · unfold childKeysOf
      rw [hpk]
      simp
    · intro srv fuel st st' hk h
      exact fetchRecursive_fetches hk h

/-- A record whose parent is the epic E1, for the C5 witness. -/
def issueEpicChild : JIssue :=
  { id := "3", key := "S2", summary := "s", description := "",
    issueType := ⟨"Story", false⟩, status := none, priority := none, assignee := none,
    labels := [], issueLinks := [], parent := some ⟨"E1", "Epic"⟩, subtasks := [],
    created := "", updated := "" }

/-- A record whose parent is the non-epic story P, for the C5 witness. -/
def issueStoryChild : JIssue :=
  { id := "4", key := "S", summary := "s", description := "",
    issueType := ⟨"Sub-task", true⟩, status := none, priority := none, assignee := none,
    labels := [], issueLinks := [], parent := some ⟨"P", "Story"⟩, subtasks := [],
    created := "", updated := "" }

/-- The parent record P itself. -/
def issueParentP : JIssue :=
  { id := "5", key := "P", summary := "p", description := "",
    issueType := ⟨"Story", false⟩, status := none, priority := none, assignee := none,
    labels := [], issueLinks := [], parent := none, subtasks := [],
    created := "", updated := "" }

/-- Witness for C5: the epic parent E1 contributes no traversal key for
S2, while the story parent P of S is a traversal key and running the
fetch on the unvisited P puts P's record in the result. -/
theorem epic_parent_exclusion_witness :
    parentChildKeys issueEpicChild = [] ∧
    parentChildKeys issueStoryChild = ["P"] ∧
    (∃ issue, fetchIssue [("P", issueParentP)] "P" = some issue ∧
      issue ∈ (FetchState.mk ["P"] [issueParentP]).issues) :=
  ⟨(epic_parent_exclusion issueEpicChild ⟨"E1", "Epic"⟩ rfl).1 rfl,
   ((epic_parent_exclusion issueStoryChild ⟨"P", "Story"⟩ rfl).2 (by decide)).1,
   ((epic_parent_exclusion issueStoryChild ⟨"P", "Story"⟩ rfl).2 (by decide)).2.2
     [("P", issueParentP)] 0 ⟨[], []⟩ ⟨["P"], [issueParentP]⟩ rfl rfl⟩

/-- C4.  A label search that succeeds with zero keys makes
`FetchIssuesByLabel` return the distinct no-issues-found error for that
label — never an empty success, and the error differs from the
search-transport, fetch-failure and fuel conditions by construction. -/
theorem zero_match_label_error (srv : List (String × JIssue)) (label : String) :
    FetchIssuesByLabel srv (.ok []) label = .error (.noIssuesFound label) ∧
    (∀ msg, FetchErr.noIssuesFound label ≠ FetchErr.searchFailed msg) ∧
    (∀ key, FetchErr.noIssuesFound label ≠ FetchErr.fetchFailed key) ∧
    FetchErr.noIssuesFound label ≠ FetchErr.fuelExhausted := by
  refine ⟨rfl, ?_, ?_, ?_⟩
  · intro msg h; cases h
  · intro key h; cases h
  · intro h; cases h

/-- `Convert` applied to any non-nil export succeeds: none of
`convertEpic`, `convertIssue` and `addDependencies` has an error path. -/
lemma convert_some_ok (ex : JExport) : ∃ res, Convert (some ex) = .ok res :=
  ⟨_, rfl⟩

/-- C2 counterexample.  The claim says `Convert` errors on an empty issue
list, but converting the non-nil export with zero issues succeeds with
empty issue and epic lists. -/
theorem convert_empty_succeeds_cex :
    Convert (some ⟨[]⟩) = .ok ⟨[], []⟩ := rfl

/-- C2 amended.  `Convert` returns an error exactly when the export is
nil; every non-nil export — the empty issue list included — converts to a
success value. -/
theorem convert_error_iff_nil :
    Convert none = .error "jira export is nil" ∧
    ∀ ex : JExport, ∃ res, Convert (some ex) = .ok res :=
  ⟨rfl, convert_some_ok⟩

/-- The status mapping as the claim describes it (spec §4.2): category key
first, then ordered case-insensitive substring fallback on the name. -/
def claimStatus (catKey statusName : String) : BStatus :=
  if catKey = "new" then .statusOpen
  else if catKey = "indeterminate" then .statusInProgress
  else if catKey = "done" then .statusClosed
  else
    let n := lowerStr statusName
    if goContains n "block" then .statusBlocked
    else if goContains n "progress" || goContains n "doing" then .statusInProgress
    else if goContains n "done" || goContains n "closed" then .statusClosed
    else .statusOpen

/-- C8.  For every status name and category key, `mapStatus` computes the
two-tier function of the claim: `new`→open, `indeterminate`→in_progress,
`done`→closed on the category key, otherwise substring matching on the
lowercased name in the order block / progress-doing / done-closed /
open. -/
theorem status_mapping_two_tier (name catKey : String) :
    mapStatus (some ⟨name, some ⟨catKey⟩⟩) = claimStatus catKey name := rfl

/-- The priority mapping as the claim describes it: ordered
case-insensitive substring matching with p2 as the unmatched default. -/
def claimPriority (priorityName : String) : BPriority :=
  let n := lowerStr priorityName
  if goContains n "critical" || goContains n "highest" then .p0
  else if goContains n "high" then .p1
  else if goContains n "medium" then .p2
  else if goContains n "lowest" then .p4
  else if goContains n "low" then .p3
  else .p2

/-- C9.  For every priority name, `mapPriority` computes the ordered
substring function of the claim with default p2, and the mapping never
fails: conversion of any export succeeds whatever the priority names. -/
theorem priority_mapping_with_default (name pid : String) :
    mapPriority (some ⟨name, pid⟩) = claimPriority name ∧
    ∀ ex : JExport, ∃ res, Convert (some ex) = .ok res :=
  ⟨rfl, convert_some_ok⟩

/-- C10.  Conversion is total on records with absent status or priority:
a nil status or a nil status-category maps to open, a nil priority maps
to p2, and `Convert` never errors on a non-nil export. -/
theorem nil_status_priority_defaults :
    mapStatus none = .statusOpen ∧
    (∀ name, mapStatus (some ⟨name, none⟩) = .statusOpen) ∧
    mapPriority none = .p2 ∧
    ∀ ex : JExport, ∃ res, Convert (some ex) = .ok res :=
  ⟨rfl, fun _ => rfl, rfl, convert_some_ok⟩

/-- C3 counterexample input: a single converted task A whose only link is
an outward "depends on" pointing at the key B, and no record with key B
anywhere in the batch. -/
def c3Issue : JIssue :=
  { id := "1", key := "A", summary := "a", description := "",
    issueType := ⟨"Task", false⟩, status := none, priority := none, assignee := none,
    labels := [], issueLinks := [⟨"is blocked by", "depends on", none, some "B"⟩],
    parent := none, subtasks := [], created := "", updated := "" }

/-- C3 counterexample.  The claim says a dependency-bearing link whose
target key has no converted issue contributes no dependency edge; but
converting the batch `[A]`, where A depends on the absent B, yields the
issue `a` with DependsOn `["b"]`: the id derived from the absent target
key is present.  (Only absent *source* keys are skipped by
`addDependencies`.) -/
theorem absent_link_target_edge_cex :
    (Convert (some ⟨[c3Issue]⟩)).toOption.map (fun r => r.issues.map BIssue.dependsOn)
      = some [["b"]] := rfl

/-- Adding dependency keys only ever appends to the DependsOn list. -/
lemma mem_addDepsToIssue_mono :
    ∀ (deps : List String) (iss : BIssue) (x : String),
      x ∈ iss.dependsOn → x ∈ (addDepsToIssue deps iss).dependsOn := by
  intro deps
  induction deps with
  | nil => intro iss x hx; exact hx
  | cons d rest ih =>
    intro iss x hx
    simp only [addDepsToIssue, List.foldl_cons]
    by_cases hc : iss.dependsOn.contains (generateBeadsID d) = true
    · rw [if_pos hc]
      exact ih iss x hx
    · rw [if_neg hc]
      exact ih _ x (by simp [hx])

/-- Every processed dependency key ends up (lowercased) in the DependsOn
list, whether it was already there or gets appended. -/
lemma mem_addDepsToIssue :
    ∀ (deps : List String) (iss : BIssue) (d : String),
      d ∈ deps → generateBeadsID d ∈ (addDepsToIssue deps iss).dependsOn := by
  intro deps
  induction deps with
  | nil => intro iss d hd; cases hd
  | cons d₀ rest ih =>
    intro iss d hd
    rcases List.mem_cons.mp hd with rfl | hdr
    · simp only [addDepsToIssue, List.foldl_cons]
      by_cases hc : iss.dependsOn.contains (generateBeadsID d) = true
      · rw [if_pos hc]
        exact mem_addDepsToIssue_mono rest iss _ (by simpa using hc)
      · rw [if_neg hc]
        exact mem_addDepsToIssue_mono rest _ _ (by simp)
    · simp only [addDepsToIssue, List.foldl_cons]
      by_cases hc : iss.dependsOn.contains (generateBeadsID d₀) = true
      · rw [if_pos hc]
        exact ih iss d hdr
      · rw [if_neg hc]
        exact ih _ d hdr

/-- C3 amended.  In the link-based dependency pass, the skip applies to
the *source* side: a dependency entry whose source key has no converted
issue (for example an epic) contributes nothing and causes no error,
while a dependency key whose *target* is absent from the converted set is
still added — `generateBeadsID` of every processed dependency key is in
the source issue's DependsOn list — and `Convert` never errors on a
non-nil export. -/
theorem absent_link_target_edge_amended :
    (∀ (issues : List BIssue) (k : String) (deps : List String),
      List.lookup k (buildIdxMap issues) = none →
      addDependencies [(k, deps)] issues = issues) ∧
    (∀ (deps : List String) (iss : BIssue) (d : String),
      d ∈ deps → generateBeadsID d ∈ (addDepsToIssue deps iss).dependsOn) ∧
    (∀ ex : JExport, ∃ res, Convert (some ex) = .ok res) := by
  refine ⟨?_, mem_addDepsToIssue, convert_some_ok⟩
  intro issues k deps h
  simp [addDependencies, depStep, h]

/-- A concrete converted issue for the C3 amended witness. -/
def c3BeadsIssue : BIssue :=
  { id := "a", title := "a", description := "", status := .statusOpen, priority := .p2,
    labels := [], dependsOn := [], epic := "", assignee := "", created := "", updated := "",
    jiraKey := "A", jiraId := "1", jiraIssueType := "Task" }

/-- Witness for the amended C3: an entry with the unconverted source key
"E1" changes nothing, and the dependency key "B" is added as "b". -/
theorem absent_link_target_edge_amended_witness :
    addDependencies [("E1", ["B"])] [c3BeadsIssue] = [c3BeadsIssue] ∧
    generateBeadsID "B" ∈ (addDepsToIssue ["B"] c3BeadsIssue).dependsOn ∧
    (∃ res, Convert (some ⟨[c3Issue]⟩) = .ok res) :=
  ⟨absent_link_target_edge_amended.1 [c3BeadsIssue] "E1" ["B"] rfl,
   absent_link_target_edge_amended.2.1 ["B"] c3BeadsIssue "B" (by simp),
   absent_link_target_edge_amended.2.2 ⟨[c3Issue]⟩⟩

/-- The DependsOn list `convertIssue` itself produces: empty, except the
single parent id for a subtask with a non-epic parent. -/
lemma convertIssue_dependsOn (em : List (String × String)) (i : JIssue) :
    (convertIssue em i).dependsOn =
      (match i.parent with
       | none => []
       | some p =>
         if i.issueType.subtask then
           if p.typeName = "Epic" then [] else [generateBeadsID p.key]
         else []) := by
  unfold convertIssue
  cases hA : i.assignee <;> cases hP : i.parent <;> simp [hA, hP] <;>
    repeat' split <;> try simp

/-- `convertIssue` stores the source key in the traceability metadata. -/
lemma convertIssue_jiraKey (em : List (String × String)) (i : JIssue) :
    (convertIssue em i).jiraKey = i.key := by
  unfold convertIssue
  cases hA : i.assignee <;> cases hP : i.parent <;> simp [hA, hP] <;>
    repeat' split <;> try simp

/-- The epic id `convertIssue` resolves: the registry entry of an "Epic"
parent's key when present, empty otherwise. -/
lemma convertIssue_epic (em : List (String × String)) (i : JIssue) :
    (convertIssue em i).epic =
      (match i.parent with
       | none => ""
       | some p =>
         if p.typeName = "Epic" then (List.lookup p.key em).getD "" else "") := by
  unfold convertIssue
  cases hA : i.assignee with
  | none =>
    cases hP : i.parent with
    | none => simp [hP]
    | some p =>
      simp only [hP]
      by_cases hT : p.typeName = "Epic"
      · cases hL : List.lookup p.key em with
        | none => repeat' split <;> simp_all
        | some e => repeat' split <;> simp_all
      · repeat' split <;> simp_all
  | some u =>
    cases hP : i.parent with
    | none => simp only [hP]; repeat' split <;> simp_all
    | some p =>
      simp only [hP]
      by_cases hT : p.typeName = "Epic"
      · cases hL : List.lookup p.key em with
        | none => repeat' split <;> simp_all
        | some e => repeat' split <;> simp_all
      · repeat' split <;> simp_all

/-- The membership check before each append keeps the DependsOn list
duplicate-free. -/
lemma nodup_addDepsToIssue :
    ∀ (deps : List String) (iss : BIssue),
      iss.dependsOn.Nodup → (addDepsToIssue deps iss).dependsOn.Nodup := by
  intro deps
  induction deps with
  | nil => intro iss h; exact h
  | cons d rest ih =>
    intro iss h
    simp only [addDepsToIssue, List.foldl_cons]
    by_cases hc : iss.dependsOn.contains (generateBeadsID d) = true
    · rw [if_pos hc]
      exact ih iss h
    · rw [if_neg hc]
      refine ih _ ?_
      simp only []
      rw [List.nodup_append]
      refine ⟨h, List.nodup_singleton _, ?_⟩
      intro a ha hb
      simp only [List.mem_singleton] at hb
      subst hb
      exact hc (by simpa using ha)

/-- `addDepsToIssue` touches only the DependsOn field. -/
lemma addDepsToIssue_fields :
    ∀ (deps : List String) (iss : BIssue),
      (addDepsToIssue deps iss).jiraKey = iss.jiraKey ∧
      (addDepsToIssue deps iss).epic = iss.epic := by
  intro deps
  induction deps with
  | nil => intro iss; exact ⟨rfl, rfl⟩
  | cons d rest ih =>
    intro iss
    simp only [addDepsToIssue, List.foldl_cons]
    by_cases hc : iss.dependsOn.contains (generateBeadsID d) = true
    · rw [if_pos hc]; exact ih iss
    · rw [if_neg hc]; exact ih _

/-- One dependency step preserves any per-issue property that
`addDepsToIssue` preserves. -/
lemma depStep_preserves_forall {P : BIssue → Prop}
    (hstep : ∀ deps iss, P iss → P (addDepsToIssue deps iss))
    (idxMap : List (String × Nat)) (acc : List BIssue) (entry : String × List String)
    (h : ∀ iss ∈ acc, P iss) : ∀ iss ∈ depStep idxMap acc entry, P iss := by
  rcases hl : List.lookup entry.1 idxMap with _ | i
  · intro iss hiss
    simp only [depStep, hl] at hiss
    exact h iss hiss
  · rcases hg : acc.get? i with _ | iss₀
    · intro iss hiss
      simp only [depStep, hl, hg] at hiss
      exact h iss hiss
    · intro iss hiss
      simp only [depStep, hl, hg] at hiss
      rcases List.mem_or_eq_of_mem_set hiss with hmem | rfl
      · exact h iss hmem
      · exact hstep entry.2 iss₀ (h iss₀ (List.get?_mem hg))

/-- The dependency pass preserves any per-issue property that
`addDepsToIssue` preserves. -/
lemma addDependencies_preserves_forall {P : BIssue → Prop}
    (hstep : ∀ deps iss, P iss → P (addDepsToIssue deps iss)) :
    ∀ (jiraDeps : List (String × List String)) (idxMap : List (String × Nat))
      (issues : List BIssue), (∀ iss ∈ issues, P iss) →
      ∀ iss ∈ jiraDeps.foldl (depStep idxMap) issues, P iss := by
  intro jiraDeps
  induction jiraDeps with
  | nil => intro idxMap issues h; exact h
  | cons entry rest ih =>
    intro idxMap issues h
    simp only [List.foldl_cons]
    exact ih idxMap _ (depStep_preserves_forall hstep idxMap issues entry h)

/-- C6.  For every input to `Convert` and every issue in the output, the
DependsOn list has no duplicate ids: the initial list from `convertIssue`
is empty or a singleton, and the link pass appends an id only when it is
not already present (idempotent merge). -/
theorem dependsOn_nodup (ex : JExport) (res : BExport)
    (h : Convert (some ex) = .ok res) :
    ∀ issue ∈ res.issues, issue.dependsOn.Nodup := by
  have h0 : Convert (some ex) = .ok
      { issues := addDependencies (getDependencies ex)
          ((ex.issues.filter (fun issue => issue.issueType.name ≠ "Epic")).map
            (convertIssue (buildEpicMap (getEpics ex))))
        epics := (getEpics ex).map convertEpic } := rfl
  rw [h] at h0
  injection h0 with h0
  subst h0
  unfold addDependencies
  apply addDependencies_preserves_forall (P := fun iss => iss.dependsOn.Nodup)
  · intro deps iss hiss
    exact nodup_addDepsToIssue deps iss hiss
  · intro iss hiss
    obtain ⟨i, _hi, rfl⟩ := List.mem_map.mp hiss
    rw [convertIssue_dependsOn]
    cases i.parent with
    | none => exact List.nodup_nil
    | some p =>
      by_cases hS : i.issueType.subtask = true
      · by_cases hT : p.typeName = "Epic" <;> simp [hS, hT]
      · simp [hS]

/-- A batch with a duplicate-inducing shape for the C6 witness: subtask S
depends on its parent P structurally, and two links also point at P. -/
def c6Issue : JIssue :=
  { id := "1", key := "S", summary := "s", description := "",
    issueType := ⟨"Sub-task", true⟩, status := none, priority := none, assignee := none,
    labels := [],
    issueLinks := [⟨"is blocked by", "blocks", some "P", none⟩,
                   ⟨"is blocked by", "blocks", some "P", none⟩],
    parent := some ⟨"P", "Story"⟩, subtasks := [], created := "", updated := "" }

/-- The conversion of `c6Issue`: the structural parent id "p" and the
twice-linked id "p" merged into the single entry. -/
def c6BeadsIssue : BIssue :=
  { id := "s", title := "s", description := "", status := .statusOpen,
    priority := .p2, labels := [], dependsOn := ["p"], epic := "", assignee := "",
    created := "", updated := "", jiraKey := "S", jiraId := "1",
    jiraIssueType := "Sub-task" }

/-- Witness for C6 on the duplicate-inducing batch: the converted issue's
DependsOn list is duplicate-free. -/
theorem dependsOn_nodup_witness : c6BeadsIssue.dependsOn.Nodup :=
  dependsOn_nodup ⟨[c6Issue]⟩ ⟨[c6BeadsIssue], []⟩ rfl c6BeadsIssue (by simp)

/-- The epic registry resolves exactly the keys of the epics it was built
from, always to the lowercased key (every write stores
`generateBeadsID` of its own key, so which duplicate wins is
irrelevant). -/
lemma lookup_buildEpicMap_aux :
    ∀ (epics : List JIssue) (m : List (String × String)) (k : String),
      List.lookup k (epics.foldl (fun m e => (e.key, generateBeadsID e.key) :: m) m) =
        if k ∈ epics.map JIssue.key then some (generateBeadsID k) else List.lookup k m := by
  intro epics
  induction epics with
  | nil => intro m k; simp
  | cons e rest ih =>
    intro m k
    simp only [List.foldl_cons]
    rw [ih]
    by_cases hr : k ∈ rest.map JIssue.key
    · simp [hr]
    · by_cases he : k = e.key
      · subst he
        simp [hr, List.lookup_cons]
      · have : (k == e.key) = false := by simpa using he
        simp [hr, List.lookup_cons, this, he]

/-- Specialisation of the registry lemma to `buildEpicMap`. -/
lemma lookup_buildEpicMap (epics : List JIssue) (k : String) :
    List.lookup k (buildEpicMap epics) =
      if k ∈ epics.map JIssue.key then some (generateBeadsID k) else none := by
  unfold buildEpicMap
  rw [lookup_buildEpicMap_aux]
  rfl

/-- One dependency step keeps every issue's source key and epic id: only
DependsOn changes. -/
lemma depStep_map_pairs (idxMap : List (String × Nat)) (acc : List BIssue)
    (entry : String × List String) :
    (depStep idxMap acc entry).map (fun b => (b.jiraKey, b.epic)) =
      acc.map (fun b => (b.jiraKey, b.epic)) := by
  rcases hl : List.lookup entry.1 idxMap with _ | i
  · simp [depStep, hl]
  · rcases hg : acc.get? i with _ | iss₀
    · rw [List.get?_eq_getElem?] at hg
      simp [depStep, hl, hg]
    · simp only [depStep, hl, hg]
      rw [List.map_set]
      obtain ⟨hk, he⟩ := addDepsToIssue_fields entry.2 iss₀
      rw [hk, he]
      apply set_get_same
      have hg' := hg
      rw [List.get?_eq_getElem?] at hg'
      rw [List.get?_eq_getElem?, List.getElem?_map, hg']
      rfl

/-- The whole dependency pass keeps every issue's source key and epic
id. -/
lemma addDependencies_map_pairs (jiraDeps : List (String × List String)) :
    ∀ (idxMap : List (String × Nat)) (issues : List BIssue),
      (jiraDeps.foldl (depStep idxMap) issues).map (fun b => (b.jiraKey, b.epic)) =
        issues.map (fun b => (b.jiraKey, b.epic)) := by
  induction jiraDeps with
  | nil => intro idxMap issues; rfl
  | cons entry rest ih =>
    intro idxMap issues
    simp only [List.foldl_cons]
    rw [ih, depStep_map_pairs]

/-- ASCII lowercasing keeps a string nonempty. -/
lemma lowerStr_ne_empty {s : String} (h : s ≠ "") : lowerStr s ≠ "" := by
  intro he
  apply h
  apply String.ext
  have : (lowerStr s).data = [] := by rw [he]
  unfold lowerStr at this
  simpa using this

/-- C7.  For a non-epic record with an "Epic" parent reference: when a
record with the parent's key and issue-type "Epic" is in the same batch,
the converted issue's epic id is the lowercased parent key (nonempty for
a nonempty key); when no such epic is in the batch, the epic id is empty
— and `Convert` succeeds either way, because every epic is registered in
the epic map before any issue is converted. -/
theorem epic_linkage (ex : JExport) (i : JIssue) (p : JParent)
    (hi : i ∈ ex.issues) (hne : i.issueType.name ≠ "Epic")
    (hp : i.parent = some p) (hE : p.typeName = "Epic") (hkey : p.key ≠ "") :
    ∃ res, Convert (some ex) = .ok res ∧
      ∃ bi ∈ res.issues, bi.jiraKey = i.key ∧
        ((p.key ∈ (getEpics ex).map JIssue.key →
            bi.epic = generateBeadsID p.key ∧ bi.epic ≠ "") ∧
         (p.key ∉ (getEpics ex).map JIssue.key → bi.epic = "")) := by
  refine ⟨_, rfl, ?_⟩
  set em := buildEpicMap (getEpics ex) with hem
  set nonEpics := ex.issues.filter (fun issue => issue.issueType.name ≠ "Epic")
    with hnonEpics
  have himem : i ∈ nonEpics := by
    rw [hnonEpics]
    exact List.mem_filter.mpr ⟨hi, by simpa using hne⟩
  have hpair : ((convertIssue em i).jiraKey, (convertIssue em i).epic)
      ∈ (addDependencies (getDependencies ex) (nonEpics.map (convertIssue em))).map
        (fun b => (b.jiraKey, b.epic)) := by
    unfold addDependencies
    rw [addDependencies_map_pairs]
    exact List.mem_map.mpr ⟨convertIssue em i, List.mem_map.mpr ⟨i, himem, rfl⟩, rfl⟩
  obtain ⟨bi, hbi, hbipair⟩ := List.mem_map.mp hpair
  refine ⟨bi, hbi, ?_⟩
  have hkeq : bi.jiraKey = (convertIssue em i).jiraKey := congrArg Prod.fst hbipair
  have heeq : bi.epic = (convertIssue em i).epic := congrArg Prod.snd hbipair
  rw [convertIssue_jiraKey] at hkeq
  refine ⟨hkeq, ?_, ?_⟩
  · intro hmem
    rw [heeq, convertIssue_epic, hp]
    simp only [hE, if_true, hem, lookup_buildEpicMap, hmem, if_pos]
    exact ⟨rfl, lowerStr_ne_empty hkey⟩
  · intro hmem
    rw [heeq, convertIssue_epic, hp]
    simp only [hE, if_true, hem, lookup_buildEpicMap]
    rw [if_neg hmem]
    rfl

/-- The epic record E1 itself, for the C7 witness. -/
def c7Epic : JIssue :=
  { id := "10", key := "E1", summary := "epic", description := "",
    issueType := ⟨"Epic", false⟩, status := none, priority := none, assignee := none,
    labels := [], issueLinks := [], parent := none, subtasks := [],
    created := "", updated := "" }

/-- The batch containing the epic E1 and its child S2 (`issueEpicChild`). -/
def c7Export : JExport := ⟨[c7Epic, issueEpicChild]⟩

/-- The batch containing only the child S2, with E1 absent. -/
def c7ExportNoEpic : JExport := ⟨[issueEpicChild]⟩

/-- Witness for C7: with E1 in the batch, the converted S2 resolves a
nonempty epic id; with E1 absent, conversion still succeeds with an empty
epic id. -/
theorem epic_linkage_witness :
    (∃ res, Convert (some c7Export) = .ok res ∧
      ∃ bi ∈ res.issues, bi.jiraKey = "S2" ∧
        (("E1" ∈ (getEpics c7Export).map JIssue.key →
            bi.epic = generateBeadsID "E1" ∧ bi.epic ≠ "") ∧
         ("E1" ∉ (getEpics c7Export).map JIssue.key → bi.epic = ""))) ∧
    (∃ res, Convert (some c7ExportNoEpic) = .ok res ∧
      ∃ bi ∈ res.issues, bi.jiraKey = "S2" ∧
        (("E1" ∈ (getEpics c7ExportNoEpic).map JIssue.key →
            bi.epic = generateBeadsID "E1" ∧ bi.epic ≠ "") ∧
         ("E1" ∉ (getEpics c7ExportNoEpic).map JIssue.key → bi.epic = ""))) :=
  ⟨epic_linkage c7Export issueEpicChild ⟨"E1", "Epic"⟩ (by simp [c7Export])
      (by decide) rfl rfl (by decide),
   epic_linkage c7ExportNoEpic issueEpicChild ⟨"E1", "Epic"⟩ (by simp [c7ExportNoEpic])
      (by decide) rfl rfl (by decide)⟩

end JiraToBeads
